import Mathlib

/-!
# Verification of the SHL assessment recommender's core pipeline

A shallow embedding of the recommendation pipeline of this repository:
`recommendation_engine.py` (duration-constraint extraction, the keyword
heuristic scorer, LLM direct selection, the embedding-similarity path and
the orchestrator `get_recommendations`), `utils.py` / `data_processor.py`
(duration parsing), `api.py` (caller-side result filters) and
`database.py` (`save_query_and_recommendations`).

Numeric scores are modelled with `ℚ` (the Python floats involved are sums
of small decimal literals and comparisons; every claim under study depends
only on order/cap behaviour preserved by exact arithmetic).  External
network calls (Gemini LLM, embedding API, web scraping) are modelled as
oracle inputs; the float-valued `cosine_similarity` kernel, whose value
involves real square roots and never influences any claim under study, is
abstracted as an oracle field as well.
-/

namespace SHLRec

/-! ## Character-level helpers for the regex patterns used by the source -/

/-- Value of a digit string, as produced by Python `int` on a `(\d+)` capture. -/
def natOfDigits (cs : List Char) : Nat :=
  cs.foldl (fun n c => 10 * n + (c.toNat - 48)) 0

/-- Python `str.lower()` (ASCII range; the repository's keyword lists and
field values are ASCII).  List-based so that it reduces in the kernel. -/
def lowerStr (s : String) : String := String.mk (s.toList.map Char.toLower)

/-- Python `\s` (ASCII range): space, tab, newline, carriage return,
vertical tab, form feed. -/
def isSpaceChar (c : Char) : Bool :=
  c = ' ' || c = '\t' || c = '\n' || c = '\r' || c = '\x0b' || c = '\x0c'

/-- Substring test: Python's `needle in haystack` on strings. -/
def listContainsSub (needle : List Char) : List Char → Bool
  | [] => needle.isEmpty
  | c :: rest => needle.isPrefixOf (c :: rest) || listContainsSub needle rest

/-- Python `sub in s` for strings. -/
def substrOf (needle haystack : String) : Bool :=
  listContainsSub needle.toList haystack.toList

/-!
Matchers for the regex shapes used by the source, with `re.search`
(leftmost-match) semantics.  For a pattern `(\d+)\s*lit` a start position
inside a digit run matches exactly when the start of the run does (the
backtracked shorter digit captures are always followed by a digit, which
`\s*lit` rejects since `lit` starts with a letter), so scanning character
by character and testing the maximal digit run is faithful.
-/

/-- `re.search(r'(\d+)\s*<lit>', s)` returning the captured integer:
leftmost maximal digit run that is followed by whitespace and then `lit`. -/
def scanDigitsLit (lit : List Char) : List Char → Option Nat
  | [] => none
  | c :: rest =>
    if c.isDigit then
      let run := (c :: rest).takeWhile Char.isDigit
      let after := (c :: rest).dropWhile Char.isDigit
      if lit.isPrefixOf (after.dropWhile isSpaceChar) then some (natOfDigits run)
      else scanDigitsLit lit rest
    else scanDigitsLit lit rest

/-- `re.search(r'<lit>\s*(\d+)', s)` returning the captured integer:
leftmost occurrence of `lit` followed by whitespace and at least one digit. -/
def scanLitNum (lit : List Char) : List Char → Option Nat
  | [] => none
  | c :: rest =>
    if lit.isPrefixOf (c :: rest) then
      let t := ((c :: rest).drop lit.length).dropWhile isSpaceChar
      let run := t.takeWhile Char.isDigit
      if run.isEmpty then scanLitNum lit rest else some (natOfDigits run)
    else scanLitNum lit rest

/-- The tail of `re.search(r'<lit>.*?(\d+)\s*min', s)`: after `lit`, the lazy
`.*?` (which cannot cross a newline) stops at the first digit run that is
followed by whitespace and `min`. -/
def scanGapDigits : List Char → Option Nat
  | [] => none
  | c :: rest =>
    if c = '\n' then none
    else if c.isDigit then
      let run := (c :: rest).takeWhile Char.isDigit
      let after := (c :: rest).dropWhile Char.isDigit
      if ['m', 'i', 'n'].isPrefixOf (after.dropWhile isSpaceChar) then
        some (natOfDigits run)
      else scanGapDigits rest
    else scanGapDigits rest

/-- `re.search(r'<lit>.*?(\d+)\s*min', s)` returning the captured integer. -/
def scanLitGapNum (lit : List Char) : List Char → Option Nat
  | [] => none
  | c :: rest =>
    if lit.isPrefixOf (c :: rest) then
      match scanGapDigits ((c :: rest).drop lit.length) with
      | some v => some v
      | none => scanLitGapNum lit rest
    else scanLitGapNum lit rest

/-- `re.search(r'(\d+)', s)` returning the captured integer: the leftmost
maximal digit run. -/
def firstNumber (s : List Char) : Option Nat :=
  let t := s.dropWhile (fun c => !c.isDigit)
  if t.isEmpty then none else some (natOfDigits (t.takeWhile Char.isDigit))

/-! ## `extract_time_constraint` (recommendation_engine.py, lines 15-44) -/

/-- `extract_time_constraint`: tries the eight time patterns in source order
(case-insensitively, modelled by lowercasing both sides) and returns the
first captured integer. -/
def extract_time_constraint (query : String) : Option Nat :=
  let s := (lowerStr query).toList
  scanDigitsLit "min".toList s <|>
  scanDigitsLit "minute".toList s <|>
  scanLitNum "less than".toList s <|>
  scanLitNum "within".toList s <|>
  scanLitNum "under".toList s <|>
  scanLitGapNum "max".toList s <|>
  scanLitGapNum "maximum".toList s <|>
  scanLitNum "no more than".toList s

/-! ## `extract_duration_minutes` (utils.py, lines 24-47) -/

/-- `extract_duration_minutes`: empty string fails; an hour figure
(`(\d+)\s*hour`, case-insensitive) is converted to minutes; otherwise the
first integer in the string is returned as minutes. -/
def extract_duration_minutes (duration_str : String) : Option Nat :=
  if duration_str = "" then none
  else
    match scanDigitsLit "hour".toList (lowerStr duration_str).toList with
    | some h => some (h * 60)
    | none => firstNumber duration_str.toList

/-! ## `extract_duration` (data_processor.py, lines 44-69)

The first source pattern `(\d+)\s*(?:minute|min)s?` succeeds at a position
exactly when `(\d+)\s*min` does (the `minute` alternative and the optional
`s` only extend a match that the `min` alternative already accepts), with
the same capture, so it is modelled by the `min` matcher. -/

/-- `extract_duration`: minutes pattern first, then the hour pattern
converted to minutes (`duration *= 60`), both case-insensitive. -/
def extract_duration (text : String) : Option Nat :=
  let s := (lowerStr text).toList
  match scanDigitsLit "min".toList s with
  | some v => some v
  | none =>
    match scanDigitsLit "hour".toList s with
    | some v => some (v * 60)
    | none => none

/-! ## Data model

An assessment record as it flows through the pipeline: a dictionary with
the catalog fields, plus the optional `score` entry that the embedding and
keyword paths attach (`assessment_with_score["score"] = ...`); records
arriving from the catalog carry no `score` key, modelled as `none`. -/

structure Assessment where
  name : String := ""
  url : String := ""
  description : String := ""
  remote_testing : String := ""
  adaptive_support : String := ""
  duration : String := ""
  test_type : String := ""
  score : Option ℚ := none
deriving DecidableEq, Repr, Inhabited

/-! ## `fallback_relevance_score` (recommendation_engine.py, lines 88-157) -/

/-- The `tech_skills` list of the source. -/
def tech_skills : List String :=
  ["java", "python", "javascript", "js", "sql", "c#", "c++", "react",
   "angular", "node", "excel", "data analysis", "coding"]

/-- The `role_types` list of the source. -/
def role_types : List String :=
  ["developer", "engineer", "analyst", "manager", "leader", "executive",
   "technical", "business", "data", "hr", "sales", "marketing"]

/-- The `test_types` keyword dictionary of the source. -/
def test_type_keywords : List (String × List String) :=
  [("cognitive", ["reasoning", "logic", "problem solving", "analytical", "critical thinking"]),
   ("personality", ["behavior", "attitude", "team fit", "communication", "collaboration"]),
   ("skill", ["coding", "technical", "practical", "hands-on"]),
   ("situational", ["judgment", "scenario", "decision making"])]

/-- Skills that score `+0.2` each: `skill in query and (skill in name or
skill in description)`, all sides lowercased as in the source. -/
def matchedSkills (query : String) (a : Assessment) : List String :=
  let q := lowerStr query
  let nm := lowerStr a.name
  let ds := lowerStr a.description
  tech_skills.filter (fun s => substrOf s q && (substrOf s nm || substrOf s ds))

/-- Role types that score `+0.15` each. -/
def matchedRoles (query : String) (a : Assessment) : List String :=
  let q := lowerStr query
  let nm := lowerStr a.name
  let ds := lowerStr a.description
  role_types.filter (fun r => substrOf r q && (substrOf r nm || substrOf r ds))

/-- Test-type groups that score `+0.25` each: some keyword of the group
occurs in the query and the group's key occurs in the candidate's
(lowercased) `test_type` field. -/
def matchedTestTypes (query : String) (a : Assessment) : List (String × List String) :=
  let q := lowerStr query
  let tt := lowerStr a.test_type
  test_type_keywords.filter (fun p => p.2.any (fun k => substrOf k q) && substrOf p.1 tt)

/-- Outcome of the duration check of the keyword heuristic. -/
inductive DurSignal where
  | penalty
  | neutral
  | bonus
deriving DecidableEq, Repr

/-- Score contribution of the duration check: `+0.3` when the candidate fits
the constraint, `-0.1` when it exceeds it, `0` otherwise. -/
def DurSignal.val : DurSignal → ℚ
  | .penalty => -1/10
  | .neutral => 0
  | .bonus => 3/10

/-- The duration check of `fallback_relevance_score`: a constraint is
extracted from the (already lowercased) query; Python's `if time_constraint:`
treats an extracted `0` like no constraint; the candidate's duration is the
first integer of its `duration` field. -/
def durSignal (query : String) (a : Assessment) : DurSignal :=
  match extract_time_constraint (lowerStr query) with
  | none => .neutral
  | some t =>
    if t = 0 then .neutral
    else
      match firstNumber a.duration.toList with
      | none => .neutral
      | some d => if d ≤ t then .bonus else .penalty

/-- The remote-testing bonus condition: `"remote" in query.lower() and
assessment.get("remote_testing", "").lower() == "yes"`. -/
def remoteSignal (query : String) (a : Assessment) : Bool :=
  substrOf "remote" (lowerStr query) && lowerStr a.remote_testing == "yes"

/-- The additive score of the keyword heuristic as a function of the five
signal groups, before the cap: each loop of the source adds a constant per
matched element, so the total is the constant times the match count. -/
def signal_sum (s r t : Nat) (d : DurSignal) (rem : Bool) : ℚ :=
  (2/10 : ℚ) * s + (3/20 : ℚ) * r + (1/4 : ℚ) * t + d.val +
    (if rem then 1/10 else 0)

/-- The keyword-heuristic score from the five signal groups:
`min(score, 1.0)` of the source. -/
def score_from_signals (s r t : Nat) (d : DurSignal) (rem : Bool) : ℚ :=
  min (signal_sum s r t d rem) 1

/-- `fallback_relevance_score`: the keyword-heuristic relevance score of a
candidate for a query. -/
def fallback_relevance_score (query : String) (a : Assessment) : ℚ :=
  score_from_signals (matchedSkills query a).length (matchedRoles query a).length
    (matchedTestTypes query a).length (durSignal query a) (remoteSignal query a)

/-! ## `llm_recommendation` (recommendation_engine.py, lines 159-231)

The Gemini call is an oracle: `llmResp` is the outcome of
`model.generate_content(prompt).text` (`Except.error` models a raised
exception, which the function's own handler turns into `[]`). -/

/-- Consume characters up to and including the first `']'`. -/
def upToClose : List Char → Option (List Char)
  | [] => none
  | c :: rest =>
    if c = ']' then some [c]
    else
      match upToClose rest with
      | some tail => some (c :: tail)
      | none => none

/-- `re.search(r'\[.*?\]', text, re.DOTALL)`: the segment from the first
`'['` to the first `']'` after it, if both exist. -/
def findBracket : List Char → Option (List Char)
  | [] => none
  | c :: rest =>
    if c = '[' then
      match upToClose rest with
      | some tail => some (c :: tail)
      | none => none
    else findBracket rest

/-- Split a character list at commas. -/
def splitOnComma : List Char → List (List Char)
  | [] => [[]]
  | c :: rest =>
    if c = ',' then [] :: splitOnComma rest
    else
      match splitOnComma rest with
      | [] => [[c]]
      | t :: ts => (c :: t) :: ts

/-- Strip surrounding whitespace. -/
def trimChars (cs : List Char) : List Char :=
  ((cs.dropWhile Char.isWhitespace).reverse.dropWhile Char.isWhitespace).reverse

/-- A JSON integer literal: digits, no leading zero (except `0` itself). -/
def digitsToken (ds : List Char) : Option Nat :=
  if ds.isEmpty then none
  else if !ds.all Char.isDigit then none
  else if 1 < ds.length && ds.head? == some '0' then none
  else some (natOfDigits ds)

/-- A JSON integer literal with optional leading minus. -/
def parseIntToken : List Char → Option Int
  | '-' :: ds => (digitsToken ds).map (fun n => -(n : Int))
  | ds => (digitsToken ds).map (fun n => (n : Int))

/-- `json.loads` restricted to flat integer arrays, the shape the prompt
requests; any other payload yields `none`.  (On payloads `json.loads`
accepts but that are not integer arrays, the source raises `TypeError`
while indexing and its own top handler returns `[]`, the same final
output this model produces.) -/
def parseIntArray (s : List Char) : Option (List Int) :=
  let inner := (s.drop 1).dropLast
  (splitOnComma inner).mapM (fun p => parseIntToken (trimChars p))

/-- Lines 222-225 of the source: keep 1-based indices within
`[1, len(assessments)]`, shift to 0-based, truncate to `max_results`, and
return the candidates at the surviving indices in the model's order. -/
def llm_select (indices : List Int) (assessments : List Assessment)
    (max_results : Nat) : List Assessment :=
  let idx0 := (indices.filter
    (fun i => decide (1 ≤ i ∧ i ≤ (assessments.length : Int)))).map (fun i => i - 1)
  (idx0.take max_results).filterMap (fun i => assessments[i.toNat]?)

/-- `llm_recommendation`: no API key, a raised model call, a response with
no bracketed array, or an unparseable array all yield `[]`; otherwise the
parsed indices select the candidates. -/
def llm_recommendation (hasKey : Bool) (llmResp : Except String String)
    (assessments : List Assessment) (max_results : Nat) : List Assessment :=
  if !hasKey then []
  else
    match llmResp with
    | .error _ => []
    | .ok text =>
      match findBracket text.toList with
      | none => []
      | some sub =>
        match parseIntArray sub with
        | none => []
        | some indices => llm_select indices assessments max_results

/-! ## The orchestrator `get_recommendations` (recommendation_engine.py,
lines 233-356)

Python's `list.sort(key=..., reverse=True)` is a stable descending sort;
any stable sort computes the same list, so it is modelled with
`List.insertionSort` under the relation `byScoreDesc` (earlier element
stays in front exactly when its score is ≥ the later one's). -/

/-- Sort relation for `results.sort(key=lambda x: x[1], reverse=True)`. -/
def byScoreDesc (x y : Assessment × ℚ) : Prop := y.2 ≤ x.2

instance : DecidableRel byScoreDesc :=
  fun x y => inferInstanceAs (Decidable (y.2 ≤ x.2))

/-- The external embedding provider: `getEmb` models `get_embedding`
(whose own handler converts any failure, including a missing key, into
`None`); `cosSim` abstracts the float value of `cosine_similarity`
(lines 68-86), which involves real square roots and whose numeric value
no claim under study depends on. -/
structure EmbProvider where
  getEmb : String → Option (List ℚ)
  cosSim : List ℚ → List ℚ → ℚ

/-- Lines 280-317: the embedding-based search, entered with a truthy query
embedding `qe`.  Candidates whose embedding call fails (or is the falsy
empty list) are skipped; a candidate whose parsed duration exceeds a truthy
time constraint has its similarity halved; results are sorted by similarity
descending and truncated. -/
def embeddingPath (P : EmbProvider) (qe : List ℚ) (time_constraint : Option Nat)
    (assessments : List Assessment) (max_results : Nat) : List Assessment :=
  let results := assessments.filterMap (fun a =>
    match P.getEmb (a.name ++ " " ++ a.description) with
    | none => none
    | some ae =>
      if ae.isEmpty then none
      else
        let sim := P.cosSim qe ae
        let sim :=
          match time_constraint with
          | some t =>
            if t ≠ 0 then
              match firstNumber a.duration.toList with
              | some d => if t < d then sim * (1/2) else sim
              | none => sim
            else sim
          | none => sim
        some ({ a with score := some sim }, sim))
  let sorted := results.insertionSort byScoreDesc
  (sorted.take max_results).map Prod.fst

/-- Lines 321-328: a candidate paired with its keyword-heuristic score, as
`(assessment_with_score, relevance)`. -/
def scoreEntry (query : String) (a : Assessment) : Assessment × ℚ :=
  ({ a with score := some (fallback_relevance_score query a) },
    fallback_relevance_score query a)

/-- Lines 320-331: all candidates scored by the keyword heuristic and
sorted by relevance descending. -/
def scoredSorted (query : String) (assessments : List Assessment) :
    List (Assessment × ℚ) :=
  (assessments.map (scoreEntry query)).insertionSort byScoreDesc

/-- Line 337-338: a scored candidate passes the duration filter when its
`duration` field contains an integer that is at most the constraint. -/
def durFilterPred (t : Nat) (x : Assessment × ℚ) : Bool :=
  match firstNumber x.1.duration.toList with
  | some d => decide (d ≤ t)
  | none => false

/-- Lines 319-352: the keyword-heuristic fallback.  Every candidate is
scored, results are sorted descending, then — under a truthy time
constraint — candidates whose parsed duration exceeds it are dropped
unless that would empty the list, and the head of the list is returned. -/
def keywordPath (query : String) (time_constraint : Option Nat)
    (assessments : List Assessment) (max_results : Nat) : List Assessment :=
  let sorted := scoredSorted query assessments
  let results2 :=
    match time_constraint with
    | some t =>
      if t ≠ 0 then
        let filtered := sorted.filter (durFilterPred t)
        if filtered.isEmpty then sorted else filtered
      else sorted
    | none => sorted
  (results2.take max_results).map Prod.fst

/-- The body of `get_recommendations`' top-level `try`.  `scrape` models
`get_website_text_content` (`Except.error` = a raised exception, `""` = a
falsy extraction); URL inputs that resolve to nothing short-circuit to
`[]`; then the three strategies run in priority order. -/
def get_recommendations_body (hasKey : Bool)
    (scrape : String → Except String String) (llmResp : Except String String)
    (P : EmbProvider) (input_text : String) (assessments : List Assessment)
    (is_url : Bool) (max_results : Nat) : Except String (List Assessment) :=
  match (if is_url then scrape input_text else .ok input_text) with
  | .error e => .error e
  | .ok query =>
    if is_url && query == "" then .ok []
    else
      let time_constraint := extract_time_constraint query
      let llm_results := llm_recommendation hasKey llmResp assessments max_results
      if !llm_results.isEmpty then .ok llm_results
      else if hasKey then
        match P.getEmb query with
        | some qe =>
          if !qe.isEmpty then
            .ok (embeddingPath P qe time_constraint assessments max_results)
          else .ok (keywordPath query time_constraint assessments max_results)
        | none => .ok (keywordPath query time_constraint assessments max_results)
      else .ok (keywordPath query time_constraint assessments max_results)

/-- `get_recommendations`: the body under the top-level
`try ... except Exception: return []`. -/
def get_recommendations (hasKey : Bool)
    (scrape : String → Except String String) (llmResp : Except String String)
    (P : EmbProvider) (input_text : String) (assessments : List Assessment)
    (is_url : Bool) (max_results : Nat) : List Assessment :=
  match get_recommendations_body hasKey scrape llmResp P input_text assessments
      is_url max_results with
  | .ok l => l
  | .error _ => []

/-! ## Caller-side filters (api.py, `get_recommendation`, lines 111-144)

Filter facets applied to the orchestrator's result.  `test_types` is the
raw comma-separated query parameter (Python truthiness: `None` or `""`
deactivate it); the other three are active exactly when present. -/

structure FilterParams where
  test_types : Option String := none
  max_duration : Option Nat := none
  remote_testing : Option Bool := none
  adaptive_support : Option Bool := none

/-- Split a comma-separated string and strip the parts, as
`[t.strip() for t in test_types.split(',')]` does. -/
def parseTypeList (s : String) : List String :=
  (splitOnComma s.toList).map (fun p => String.mk (trimChars p))

/-- Lines 111-144 of `api.py`: the four facet filters, applied in source
order when at least one facet is active.  A missing duration parse keeps
the item; remote/adaptive compare the field against `"Yes"`/`"No"`. -/
def apply_filters (recommendations : List Assessment) (fp : FilterParams) :
    List Assessment :=
  let ttActive := match fp.test_types with
    | some s => !(s == "")
    | none => false
  if !(ttActive || fp.max_duration.isSome || fp.remote_testing.isSome ||
      fp.adaptive_support.isSome) then
    recommendations
  else
    let fr := recommendations
    let fr := match fp.test_types with
      | some s =>
        if !(s == "") then
          let tl := parseTypeList s
          fr.filter (fun r => tl.contains r.test_type)
        else fr
      | none => fr
    let fr := match fp.max_duration with
      | some cap => fr.filter (fun r =>
          match extract_duration r.duration with
          | none => true
          | some d => decide (d ≤ cap))
      | none => fr
    let fr := match fp.remote_testing with
      | some b => fr.filter (fun r => r.remote_testing == (if b then "Yes" else "No"))
      | none => fr
    let fr := match fp.adaptive_support with
      | some b => fr.filter (fun r => r.adaptive_support == (if b then "Yes" else "No"))
      | none => fr
    fr

/-! ## Persistence (database.py, `save_query_and_recommendations`,
lines 148-198)

The relational tables are modelled as in-memory row lists with counters
supplying the autoincrement primary keys.  `db.flush()` makes a row
visible to later `db.query(...)` calls of the same session, so the write
loop threads the growing state. -/

structure AssessmentRow where
  id : Nat
  name : String
  url : String
  description : String
  remote_testing : String
  adaptive_support : String
  duration : String
  test_type : String
deriving DecidableEq, Repr

structure QueryRow where
  id : Nat
  query_text : String
  query_type : String
  is_url : Bool
deriving DecidableEq, Repr

structure RecRow where
  query_id : Nat
  assessment_id : Nat
  relevance_score : ℚ
  rank : Nat
deriving DecidableEq, Repr

structure DB where
  assessments : List AssessmentRow := []
  queries : List QueryRow := []
  recs : List RecRow := []
  nextAid : Nat := 1
  nextQid : Nat := 1

/-- `Assessment.from_dict`, assigned the next autoincrement id. -/
def assessmentRowOfDict (aid : Nat) (a : Assessment) : AssessmentRow :=
  { id := aid
    name := a.name
    url := a.url
    description := a.description
    remote_testing := a.remote_testing
    adaptive_support := a.adaptive_support
    duration := a.duration
    test_type := a.test_type }

/-- One iteration of the `for i, rec in enumerate(recommendations)` loop:
look up an assessment row by name, inserting one if absent, then append the
recommendation row with `rank = i + 1` and `rec.get("score", 0.0)`. -/
def saveOneRec (qid i : Nat) (db : DB) (a : Assessment) : DB :=
  let found := db.assessments.find? (fun ar => ar.name == a.name)
  let db1 := match found with
    | some _ => db
    | none =>
      { db with
        assessments := db.assessments ++ [assessmentRowOfDict db.nextAid a]
        nextAid := db.nextAid + 1 }
  let aid := match found with
    | some ar => ar.id
    | none => db.nextAid
  let row : RecRow :=
    { query_id := qid
      assessment_id := aid
      relevance_score := a.score.getD 0
      rank := i + 1 }
  { db1 with recs := db1.recs ++ [row] }

/-- The write loop over the recommendation list. -/
def saveRecsLoop (qid : Nat) : DB → Nat → List Assessment → DB
  | db, _, [] => db
  | db, i, a :: rest => saveRecsLoop qid (saveOneRec qid i db a) (i + 1) rest

/-- `save_query_and_recommendations`: insert the query row, then the
recommendation rows with name-deduplicated assessment rows. -/
def save_query_and_recommendations (db : DB) (query_text : String)
    (is_url : Bool) (recommendations : List Assessment) : DB :=
  let qid := db.nextQid
  let qrow : QueryRow :=
    { id := qid
      query_text := query_text
      query_type := if is_url then "url" else "text"
      is_url := is_url }
  let db1 := { db with
    queries := db.queries ++ [qrow]
    nextQid := qid + 1 }
  saveRecsLoop qid db1 0 recommendations

/-! ## Concrete fixtures used by the claim theorems -/

/-- A query matching all five bonus conditions of the keyword heuristic
(two technical skills, a role type, a cognitive test-type cue, an
extractable 30-minute constraint, a remote cue). -/
def allSignalsQuery : String := "java python developer reasoning remote under 30"

/-- A candidate matching `allSignalsQuery` on all five signal groups. -/
def allSignalsCand : Assessment :=
  { name := "java python developer assessment"
    test_type := "Cognitive"
    duration := "25 minutes"
    remote_testing := "Yes" }

/-- Candidate with a 20-minute duration (spec scenario of §8). -/
def candA20 : Assessment := { name := "a20", duration := "20 minutes" }

/-- Candidate with a 45-minute duration. -/
def candB45 : Assessment := { name := "b45", duration := "45 minutes" }

/-- Candidate with a 90-minute duration. -/
def candC90 : Assessment := { name := "c90", duration := "90 minutes" }

/-- Five distinct candidates for the LLM index-selection scenario. -/
def fiveCands : List Assessment :=
  [{ name := "c1" }, { name := "c2" }, { name := "c3" }, { name := "c4" }, { name := "c5" }]

/-- A plain catalog record (no score key). -/
def candPlain : Assessment := { name := "a" }

/-- Embedding provider whose every call fails. -/
def provNone : EmbProvider := { getEmb := fun _ => none, cosSim := fun _ _ => 0 }

/-- Embedding provider that embeds only the query text `"q"`: the query
embedding succeeds and every per-candidate embedding fails. -/
def provQueryOnly : EmbProvider :=
  { getEmb := fun t => if t = "q" then some [1] else none, cosSim := fun _ _ => 0 }

/-- A candidate used by the filter witness. -/
def candFilter : Assessment := { name := "f", test_type := "Skill" }

/-- Embedding provider that embeds every text as `[1]`. -/
def provAll : EmbProvider := { getEmb := fun _ => some [1], cosSim := fun _ _ => 0 }

/-! ## Shared helper lemmas -/

theorem durSignal_val_ge (d : DurSignal) : -1/10 ≤ d.val := by
  cases d <;> norm_num [DurSignal.val]

theorem fallback_score_bounds (q : String) (a : Assessment) :
    -1/10 ≤ fallback_relevance_score q a ∧ fallback_relevance_score q a ≤ 1 := by
  constructor
  · rw [fallback_relevance_score, score_from_signals]
    apply le_min
    · rw [signal_sum]
      have h1 : (0:ℚ) ≤ (2/10 : ℚ) * (matchedSkills q a).length := by positivity
      have h2 : (0:ℚ) ≤ (3/20 : ℚ) * (matchedRoles q a).length := by positivity
      have h3 : (0:ℚ) ≤ (1/4 : ℚ) * (matchedTestTypes q a).length := by positivity
      have h4 := durSignal_val_ge (durSignal q a)
      have h5 : (0:ℚ) ≤ (if remoteSignal q a then (1:ℚ)/10 else 0) := by positivity
      linarith
    · norm_num
  · rw [fallback_relevance_score, score_from_signals]
    exact min_le_right _ _

theorem mem_scoredSorted {q : String} {cands : List Assessment} {y : Assessment × ℚ} :
    y ∈ scoredSorted q cands ↔ ∃ a ∈ cands, y = scoreEntry q a := by
  simp [scoredSorted, List.mem_insertionSort, List.mem_map, eq_comm]

theorem length_llm_select_le (idxs : List Int) (cands : List Assessment) (m : Nat) :
    (llm_select idxs cands m).length ≤ m := by
  simp only [llm_select]
  refine le_trans (List.length_filterMap_le _ _) ?_
  rw [List.length_take]
  exact Nat.min_le_left _ _

theorem length_llm_recommendation_le (hasKey : Bool) (resp : Except String String)
    (cands : List Assessment) (m : Nat) :
    (llm_recommendation hasKey resp cands m).length ≤ m := by
  simp only [llm_recommendation]
  split
  · simp
  · split
    · simp
    · split
      · simp
      · split
        · simp
        · exact length_llm_select_le _ _ _

theorem length_embeddingPath_le (P : EmbProvider) (qe : List ℚ) (tc : Option Nat)
    (cands : List Assessment) (m : Nat) :
    (embeddingPath P qe tc cands m).length ≤ m := by
  simp only [embeddingPath]
  rw [List.length_map, List.length_take]
  exact Nat.min_le_left _ _

theorem length_keywordPath_le (q : String) (tc : Option Nat)
    (cands : List Assessment) (m : Nat) :
    (keywordPath q tc cands m).length ≤ m := by
  simp only [keywordPath]
  rw [List.length_map, List.length_take]
  exact Nat.min_le_left _ _

theorem body_ok_length (hasKey : Bool) (scrape : String → Except String String)
    (llmResp : Except String String) (P : EmbProvider) (input : String)
    (cands : List Assessment) (is_url : Bool) (m : Nat) (l : List Assessment) :
    get_recommendations_body hasKey scrape llmResp P input cands is_url m = .ok l →
    l.length ≤ m := by
  simp only [get_recommendations_body]
  split
  · intro h; cases h
  · split
    · intro h; cases h; simp
    · split
      · intro h; cases h; exact length_llm_recommendation_le _ _ _ _
      · split
        · split
          · split
            · intro h; cases h; exact length_embeddingPath_le _ _ _ _ _
            · intro h; cases h; exact length_keywordPath_le _ _ _ _
          · intro h; cases h; exact length_keywordPath_le _ _ _ _
        · intro h; cases h; exact length_keywordPath_le _ _ _ _

theorem keywordPath_mem {q : String} {tc : Option Nat} {cands : List Assessment}
    {m : Nat} {x : Assessment} (hx : x ∈ keywordPath q tc cands m) :
    ∃ a ∈ cands, x = { a with score := some (fallback_relevance_score q a) } := by
  have key : ∀ (l : List (Assessment × ℚ)), (∀ y, y ∈ l → y ∈ scoredSorted q cands) →
      x ∈ (l.take m).map Prod.fst →
      ∃ a ∈ cands, x = { a with score := some (fallback_relevance_score q a) } := by
    intro l hl hx2
    obtain ⟨y, hy, rfl⟩ := List.mem_map.mp hx2
    obtain ⟨a, ha, rfl⟩ := mem_scoredSorted.mp (hl y (List.mem_of_mem_take hy))
    exact ⟨a, ha, rfl⟩
  rcases tc with _ | t
  · simp only [keywordPath] at hx
    exact key _ (fun y hy => hy) hx
  · simp only [keywordPath] at hx
    split at hx
    · split at hx
      · exact key _ (fun y hy => hy) hx
      · exact key _ (fun y hy => (List.mem_filter.mp hy).1) hx
    · exact key _ (fun y hy => hy) hx

theorem embeddingPath_mem_isSome {P : EmbProvider} {qe : List ℚ} {tc : Option Nat}
    {cands : List Assessment} {m : Nat} {x : Assessment}
    (hx : x ∈ embeddingPath P qe tc cands m) : x.score.isSome = true := by
  simp only [embeddingPath] at hx
  obtain ⟨y, hy, rfl⟩ := List.mem_map.mp hx
  have hy2 := List.mem_of_mem_take hy
  rw [List.mem_insertionSort] at hy2
  obtain ⟨a, _, hfa⟩ := List.mem_filterMap.mp hy2
  split at hfa
  · cases hfa
  · split at hfa
    · cases hfa
    · cases hfa
      simp

/-- Names present in the assessments table. -/
def dbNames (db : DB) : List String := db.assessments.map AssessmentRow.name

theorem saveOneRec_recs (qid i : Nat) (db : DB) (a : Assessment) :
    ∃ aid, (saveOneRec qid i db a).recs =
      db.recs ++ [⟨qid, aid, a.score.getD 0, i + 1⟩] := by
  rcases hf : db.assessments.find? (fun ar => ar.name == a.name) with _ | ar
  · exact ⟨db.nextAid, by simp [saveOneRec, hf]⟩
  · exact ⟨ar.id, by simp [saveOneRec, hf]⟩

theorem saveOneRec_assessments (qid i : Nat) (db : DB) (a : Assessment) :
    ∃ newA, (saveOneRec qid i db a).assessments = db.assessments ++ newA := by
  rcases hf : db.assessments.find? (fun ar => ar.name == a.name) with _ | ar
  · exact ⟨[assessmentRowOfDict db.nextAid a], by simp [saveOneRec, hf]⟩
  · exact ⟨[], by simp [saveOneRec, hf]⟩

theorem saveOneRec_name_present (qid i : Nat) (db : DB) (a : Assessment) :
    a.name ∈ dbNames (saveOneRec qid i db a) := by
  rcases hf : db.assessments.find? (fun ar => ar.name == a.name) with _ | ar
  · simp only [dbNames, saveOneRec, hf]
    simp [assessmentRowOfDict]
  · have har : ar.name = a.name := by simpa using List.find?_some hf
    have harm : ar ∈ db.assessments := List.mem_of_find?_eq_some hf
    simp only [dbNames, saveOneRec, hf]
    exact har ▸ List.mem_map_of_mem _ harm

theorem saveOneRec_names_mono (qid i : Nat) (db : DB) (a : Assessment)
    (n : String) (hn : n ∈ dbNames db) : n ∈ dbNames (saveOneRec qid i db a) := by
  obtain ⟨newA, h⟩ := saveOneRec_assessments qid i db a
  rw [dbNames, h]
  simp only [List.map_append, List.mem_append]
  exact Or.inl hn

theorem saveOneRec_of_present (qid i : Nat) (db : DB) (a : Assessment)
    (hn : a.name ∈ dbNames db) :
    (saveOneRec qid i db a).assessments = db.assessments := by
  have hsome : (db.assessments.find? (fun ar => ar.name == a.name)).isSome := by
    rw [List.find?_isSome]
    obtain ⟨ar, harm, he⟩ := List.mem_map.mp hn
    exact ⟨ar, harm, by simp [he]⟩
  rcases hf : db.assessments.find? (fun ar => ar.name == a.name) with _ | ar
  · rw [hf] at hsome; cases hsome
  · simp [saveOneRec, hf]

theorem saveRecsLoop_recs (qid : Nat) :
    ∀ (l : List Assessment) (db : DB) (i : Nat),
    ∃ newRows, (saveRecsLoop qid db i l).recs = db.recs ++ newRows ∧
      newRows.map RecRow.rank = List.range' (i + 1) l.length ∧
      newRows.map RecRow.query_id = List.replicate l.length qid := by
  intro l
  induction l with
  | nil => intro db i; exact ⟨[], by simp [saveRecsLoop], by simp, by simp⟩
  | cons a rest ih =>
    intro db i
    obtain ⟨aid, hstep⟩ := saveOneRec_recs qid i db a
    obtain ⟨nr, h1, h2, h3⟩ := ih (saveOneRec qid i db a) (i + 1)
    refine ⟨⟨qid, aid, a.score.getD 0, i + 1⟩ :: nr, ?_, ?_, ?_⟩
    · show (saveRecsLoop qid (saveOneRec qid i db a) (i + 1) rest).recs = _
      rw [h1, hstep]
      simp
    · simp only [List.map_cons, h2, List.length_cons, List.range'_succ]
    · simp only [List.map_cons, h3, List.length_cons, List.replicate_succ]

theorem saveRecsLoop_names_present (qid : Nat) :
    ∀ (l : List Assessment) (db : DB) (i : Nat), ∀ a ∈ l,
      a.name ∈ dbNames (saveRecsLoop qid db i l) := by
  intro l
  induction l with
  | nil => intro db i a ha; cases ha
  | cons b rest ih =>
    intro db i a ha
    have hmono : ∀ (db2 : DB) (j : Nat) (n : String), n ∈ dbNames db2 →
        n ∈ dbNames (saveRecsLoop qid db2 j rest) := by
      clear ha ih
      induction rest with
      | nil => intro db2 j n hn; simpa [saveRecsLoop] using hn
      | cons c cs ihc =>
        intro db2 j n hn
        exact ihc (saveOneRec qid j db2 c) (j + 1) n (saveOneRec_names_mono _ _ _ _ _ hn)
    rcases List.mem_cons.mp ha with rfl | ha2
    · show a.name ∈ dbNames (saveRecsLoop qid (saveOneRec qid i db a) (i + 1) rest)
      exact hmono _ _ _ (saveOneRec_name_present qid i db a)
    · exact ih (saveOneRec qid i db b) (i + 1) a ha2

theorem saveRecsLoop_no_new (qid : Nat) :
    ∀ (l : List Assessment) (db : DB) (i : Nat),
      (∀ a ∈ l, a.name ∈ dbNames db) →
      (saveRecsLoop qid db i l).assessments = db.assessments := by
  intro l
  induction l with
  | nil => intro db i _; simp [saveRecsLoop]
  | cons a rest ih =>
    intro db i hall
    have h1 : (saveOneRec qid i db a).assessments = db.assessments :=
      saveOneRec_of_present qid i db a (hall a (List.mem_cons_self a rest))
    have h2 : dbNames (saveOneRec qid i db a) = dbNames db := by rw [dbNames, h1]; rfl
    show (saveRecsLoop qid (saveOneRec qid i db a) (i + 1) rest).assessments = _
    rw [ih (saveOneRec qid i db a) (i + 1)
      (fun x hx => h2 ▸ hall x (List.mem_cons_of_mem a hx)), h1]

/-! ## Concrete evaluations of the keyword heuristic on the fixtures -/

theorem scoreA30 : fallback_relevance_score "within 30" candA20 = 3/10 := by
  have hs : (matchedSkills "within 30" candA20).length = 0 := by decide
  have hr : (matchedRoles "within 30" candA20).length = 0 := by decide
  have ht : (matchedTestTypes "within 30" candA20).length = 0 := by decide
  have hd : durSignal "within 30" candA20 = .bonus := by decide
  have hm : remoteSignal "within 30" candA20 = false := by decide
  rw [fallback_relevance_score, hs, hr, ht, hd, hm, score_from_signals, signal_sum]
  norm_num [DurSignal.val, min_def]

theorem scoreB30 : fallback_relevance_score "within 30" candB45 = -1/10 := by
  have hs : (matchedSkills "within 30" candB45).length = 0 := by decide
  have hr : (matchedRoles "within 30" candB45).length = 0 := by decide
  have ht : (matchedTestTypes "within 30" candB45).length = 0 := by decide
  have hd : durSignal "within 30" candB45 = .penalty := by decide
  have hm : remoteSignal "within 30" candB45 = false := by decide
  rw [fallback_relevance_score, hs, hr, ht, hd, hm, score_from_signals, signal_sum]
  norm_num [DurSignal.val, min_def]

theorem scoreC30 : fallback_relevance_score "within 30" candC90 = -1/10 := by
  have hs : (matchedSkills "within 30" candC90).length = 0 := by decide
  have hr : (matchedRoles "within 30" candC90).length = 0 := by decide
  have ht : (matchedTestTypes "within 30" candC90).length = 0 := by decide
  have hd : durSignal "within 30" candC90 = .penalty := by decide
  have hm : remoteSignal "within 30" candC90 = false := by decide
  rw [fallback_relevance_score, hs, hr, ht, hd, hm, score_from_signals, signal_sum]
  norm_num [DurSignal.val, min_def]

theorem scoreA10 : fallback_relevance_score "within 10" candA20 = -1/10 := by
  have hs : (matchedSkills "within 10" candA20).length = 0 := by decide
  have hr : (matchedRoles "within 10" candA20).length = 0 := by decide
  have ht : (matchedTestTypes "within 10" candA20).length = 0 := by decide
  have hd : durSignal "within 10" candA20 = .penalty := by decide
  have hm : remoteSignal "within 10" candA20 = false := by decide
  rw [fallback_relevance_score, hs, hr, ht, hd, hm, score_from_signals, signal_sum]
  norm_num [DurSignal.val, min_def]

theorem scoreB10 : fallback_relevance_score "within 10" candB45 = -1/10 := by
  have hs : (matchedSkills "within 10" candB45).length = 0 := by decide
  have hr : (matchedRoles "within 10" candB45).length = 0 := by decide
  have ht : (matchedTestTypes "within 10" candB45).length = 0 := by decide
  have hd : durSignal "within 10" candB45 = .penalty := by decide
  have hm : remoteSignal "within 10" candB45 = false := by decide
  rw [fallback_relevance_score, hs, hr, ht, hd, hm, score_from_signals, signal_sum]
  norm_num [DurSignal.val, min_def]

theorem scoreC10 : fallback_relevance_score "within 10" candC90 = -1/10 := by
  have hs : (matchedSkills "within 10" candC90).length = 0 := by decide
  have hr : (matchedRoles "within 10" candC90).length = 0 := by decide
  have ht : (matchedTestTypes "within 10" candC90).length = 0 := by decide
  have hd : durSignal "within 10" candC90 = .penalty := by decide
  have hm : remoteSignal "within 10" candC90 = false := by decide
  rw [fallback_relevance_score, hs, hr, ht, hd, hm, score_from_signals, signal_sum]
  norm_num [DurSignal.val, min_def]

theorem firstNumberA20 : firstNumber candA20.duration.data = some 20 := by decide

theorem firstNumberB45 : firstNumber candB45.duration.data = some 45 := by decide

theorem firstNumberC90 : firstNumber candC90.duration.data = some 90 := by decide

theorem nameA20 : candA20.name = "a20" := rfl

theorem nameB45 : candB45.name = "b45" := rfl

theorem nameC90 : candC90.name = "c90" := rfl

/-! ## Claim theorems -/

/-- C1 (amended): for every input, candidate list and requested maximum the
orchestrator returns at most `max_results` elements; every element produced
by the embedding path or the keyword path carries a numeric score, and
keyword-path scores lie in `[-0.1, 1]`.  (The original claim that *every*
returned element carries a score fails on the LLM path, which returns the
selected catalog records without attaching a score — see the
counterexample.) -/
theorem orchestrator_length_and_score_fields :
    (∀ (hasKey : Bool) (scrape : String → Except String String)
      (llmResp : Except String String) (P : EmbProvider) (input : String)
      (cands : List Assessment) (is_url : Bool) (m : Nat),
      (get_recommendations hasKey scrape llmResp P input cands is_url m).length ≤ m) ∧
    (∀ (P : EmbProvider) (qe : List ℚ) (tc : Option Nat) (cands : List Assessment)
      (m : Nat), ∀ x ∈ embeddingPath P qe tc cands m, x.score.isSome = true) ∧
    (∀ (q : String) (tc : Option Nat) (cands : List Assessment) (m : Nat),
      ∀ x ∈ keywordPath q tc cands m,
        x.score.isSome = true ∧ -1/10 ≤ x.score.getD 0 ∧ x.score.getD 0 ≤ 1) := by
  refine ⟨?_, ?_, ?_⟩
  · intro hasKey scrape llmResp P input cands is_url m
    rw [get_recommendations]
    rcases hb : get_recommendations_body hasKey scrape llmResp P input cands is_url m
      with e | l
    · exact Nat.zero_le m
    · exact body_ok_length _ _ _ _ _ _ _ _ _ hb
  · intro P qe tc cands m x hx
    exact embeddingPath_mem_isSome hx
  · intro q tc cands m x hx
    obtain ⟨a, ha, rfl⟩ := keywordPath_mem hx
    exact ⟨rfl, (fallback_score_bounds q a).1, (fallback_score_bounds q a).2⟩

/-- Witness for `orchestrator_length_and_score_fields`: the membership
hypotheses discharged on a singleton catalog. -/
theorem orchestrator_length_and_score_fields_witness :
    (get_recommendations false (fun _ => .ok "") (.error "e") provNone "q" [candPlain]
      false 10).length ≤ 10 ∧
    (({ candPlain with score := some 0 } : Assessment).score.isSome = true) ∧
    (({ candPlain with score := some (fallback_relevance_score "q" candPlain) } :
        Assessment).score.isSome = true ∧
      -1/10 ≤ ({ candPlain with
        score := some (fallback_relevance_score "q" candPlain) } : Assessment).score.getD 0 ∧
      ({ candPlain with
        score := some (fallback_relevance_score "q" candPlain) } : Assessment).score.getD 0 ≤ 1) :=
  ⟨orchestrator_length_and_score_fields.1 false (fun _ => .ok "") (.error "e") provNone
      "q" [candPlain] false 10,
   orchestrator_length_and_score_fields.2.1 provAll [1] none [candPlain] 10 _
      (show _ ∈ [_] from List.mem_singleton.mpr rfl),
   orchestrator_length_and_score_fields.2.2 "q" none [candPlain] 10 _
      (show _ ∈ [_] from List.mem_singleton.mpr rfl)⟩

/-- C1 counterexample: with the LLM strategy succeeding, the orchestrator
returns a non-empty list whose element carries no score field. -/
theorem llm_path_missing_score_field :
    (get_recommendations true (fun _ => .ok "") (.ok "[1]") provNone "q" [candPlain]
        false 10).all (fun r => r.score.isSome) = false ∧
    get_recommendations true (fun _ => .ok "") (.ok "[1]") provNone "q" [candPlain]
        false 10 ≠ [] := by
  exact ⟨by decide, by decide⟩

/-- C2 (amended): the orchestrator falls through to the keyword heuristic
exactly when the LLM strategy yields nothing and either no API key is set
or the query embedding itself fails (is `None` or the falsy empty list);
the keyword heuristic then yields a non-empty ranking for every non-empty
candidate list (with a positive requested maximum).  (The original claim
also promised the fall-through when the query embedding succeeds but every
per-candidate embedding fails; the code instead returns the embedding
path's empty result — see the counterexample.) -/
theorem keyword_fallback_reachability :
    (∀ (scrape : String → Except String String) (llmResp : Except String String)
      (P : EmbProvider) (input : String) (cands : List Assessment) (m : Nat)
      (hasKey : Bool),
      llm_recommendation hasKey llmResp cands m = [] →
      (hasKey = false ∨ P.getEmb input = none ∨ P.getEmb input = some []) →
      get_recommendations hasKey scrape llmResp P input cands false m =
        keywordPath input (extract_time_constraint input) cands m) ∧
    (∀ (q : String) (tc : Option Nat) (cands : List Assessment) (m : Nat),
      cands ≠ [] → 1 ≤ m → keywordPath q tc cands m ≠ []) := by
  constructor
  · intro scrape llmResp P input cands m hasKey hllm hemb
    simp only [get_recommendations, get_recommendations_body, hllm]
    rcases hemb with h | h | h
    · subst h; simp
    · simp [h]
    · simp [h]
  · intro q tc cands m hc hm
    have hs : (scoredSorted q cands).length = cands.length := by
      simp [scoredSorted]
    have hpos : 0 < (scoredSorted q cands).length := by
      rw [hs]; exact List.length_pos.mpr hc
    rcases tc with _ | t
    · simp only [keywordPath]
      apply List.length_pos.mp
      rw [List.length_map, List.length_take, Nat.lt_min]
      exact ⟨hm, hpos⟩
    · simp only [keywordPath]
      by_cases ht : t = 0
      · rw [if_neg (by simp [ht])]
        apply List.length_pos.mp
        rw [List.length_map, List.length_take, Nat.lt_min]
        exact ⟨hm, hpos⟩
      · rw [if_pos ht]
        rcases he : ((scoredSorted q cands).filter (durFilterPred t)).isEmpty with _ | _
        · simp only [Bool.false_eq_true, if_false]
          have hl := List.length_pos.mpr (List.isEmpty_eq_false.mp he)
          apply List.length_pos.mp
          rw [List.length_map, List.length_take, Nat.lt_min]
          exact ⟨hm, hl⟩
        · simp only [eq_self_iff_true, if_true]
          apply List.length_pos.mp
          rw [List.length_map, List.length_take, Nat.lt_min]
          exact ⟨hm, hpos⟩

/-- Witness for `keyword_fallback_reachability`: with no API key the
orchestrator runs the keyword path, which is non-empty on a singleton. -/
theorem keyword_fallback_reachability_witness :
    get_recommendations false (fun _ => .ok "") (.error "e") provNone "q" [candPlain]
        false 10 = keywordPath "q" (extract_time_constraint "q") [candPlain] 10 ∧
    keywordPath "q" none [candPlain] 10 ≠ [] :=
  ⟨keyword_fallback_reachability.1 (fun _ => .ok "") (.error "e") provNone "q"
      [candPlain] 10 false rfl (Or.inl rfl),
   keyword_fallback_reachability.2 "q" none [candPlain] 10 (by simp) (by decide)⟩

/-- C2 counterexample: the LLM call fails, the query embedding succeeds,
every per-candidate embedding fails — and the orchestrator returns the
embedding path's empty result for a non-empty candidate list instead of
falling through to the keyword heuristic. -/
theorem embedding_empty_not_fallthrough :
    get_recommendations true (fun _ => .ok "") (.error "api down") provQueryOnly "q"
      [candPlain] false 10 = [] ∧ ([candPlain] : List Assessment) ≠ [] := by
  exact ⟨rfl, by simp⟩

/-- C3: indices outside `[1, candidate_count]` parsed from the model
response are discarded (dropping one from anywhere in the array leaves the
selection unchanged), and `[3, 99, 1]` against five candidates selects
exactly the third and first candidates, in the model's order. -/
theorem llm_index_discarding :
    (∀ (xs ys : List Int) (j : Int) (cands : List Assessment) (m : Nat),
      (j < 1 ∨ (cands.length : Int) < j) →
      llm_select (xs ++ j :: ys) cands m = llm_select (xs ++ ys) cands m) ∧
    llm_recommendation true (.ok "Sure: [3, 99, 1]") fiveCands 10 =
      [{ name := "c3" }, { name := "c1" }] := by
  constructor
  · intro xs ys j cands m h
    have hj : ¬(1 ≤ j ∧ j ≤ (cands.length : Int)) := by omega
    simp [llm_select, List.filter_append, List.filter_cons, hj]
  · decide

/-- Witness for `llm_index_discarding`: dropping the out-of-range index 99
leaves the selection over a singleton catalog unchanged. -/
theorem llm_index_discarding_witness :
    llm_select ([] ++ (99 : Int) :: []) [candPlain] 10 =
      llm_select ([] ++ []) [candPlain] 10 :=
  llm_index_discarding.1 [] [] 99 [candPlain] 10 (by decide)

/-- C4: the keyword-heuristic score is the capped sum of the five signal
groups; that capped sum is monotonically non-decreasing in each group's
match count (with the duration signal ordered by its contribution); the
score never exceeds 1; and the fixture matching all five bonus conditions
scores exactly 1 although its uncapped sum exceeds 1. -/
theorem keyword_score_monotone_capped :
    (∀ (q : String) (a : Assessment), fallback_relevance_score q a =
      score_from_signals (matchedSkills q a).length (matchedRoles q a).length
        (matchedTestTypes q a).length (durSignal q a) (remoteSignal q a)) ∧
    (∀ (s s2 r r2 t t2 : Nat) (d d2 : DurSignal) (rem rem2 : Bool),
      s ≤ s2 → r ≤ r2 → t ≤ t2 → d.val ≤ d2.val → (rem = true → rem2 = true) →
      score_from_signals s r t d rem ≤ score_from_signals s2 r2 t2 d2 rem2) ∧
    (∀ (q : String) (a : Assessment), fallback_relevance_score q a ≤ 1) ∧
    (fallback_relevance_score allSignalsQuery allSignalsCand = 1 ∧
      1 < signal_sum (matchedSkills allSignalsQuery allSignalsCand).length
        (matchedRoles allSignalsQuery allSignalsCand).length
        (matchedTestTypes allSignalsQuery allSignalsCand).length
        (durSignal allSignalsQuery allSignalsCand)
        (remoteSignal allSignalsQuery allSignalsCand)) := by
  refine ⟨fun q a => rfl, ?_, fun q a => (fallback_score_bounds q a).2, ?_, ?_⟩
  · intro s s2 r r2 t t2 d d2 rem rem2 hs hr ht hd hrem
    rw [score_from_signals, score_from_signals]
    apply min_le_min _ le_rfl
    rw [signal_sum, signal_sum]
    have c1 : ((s : ℚ)) ≤ (s2 : ℚ) := by exact_mod_cast hs
    have c2 : ((r : ℚ)) ≤ (r2 : ℚ) := by exact_mod_cast hr
    have c3 : ((t : ℚ)) ≤ (t2 : ℚ) := by exact_mod_cast ht
    have c5 : (if rem then (1:ℚ)/10 else 0) ≤ (if rem2 then (1:ℚ)/10 else 0) := by
      cases rem
      · cases rem2 <;> norm_num
      · rw [hrem rfl]
    have m1 : (2/10 : ℚ) * s ≤ (2/10 : ℚ) * s2 := by linarith
    have m2 : (3/20 : ℚ) * r ≤ (3/20 : ℚ) * r2 := by linarith
    have m3 : (1/4 : ℚ) * t ≤ (1/4 : ℚ) * t2 := by linarith
    linarith
  · have hs : (matchedSkills allSignalsQuery allSignalsCand).length = 2 := by decide
    have hr : (matchedRoles allSignalsQuery allSignalsCand).length = 1 := by decide
    have ht : (matchedTestTypes allSignalsQuery allSignalsCand).length = 1 := by decide
    have hd : durSignal allSignalsQuery allSignalsCand = .bonus := by decide
    have hrem : remoteSignal allSignalsQuery allSignalsCand = true := by decide
    rw [fallback_relevance_score, hs, hr, ht, hd, hrem, score_from_signals, signal_sum]
    norm_num [DurSignal.val, min_def]
  · have hs : (matchedSkills allSignalsQuery allSignalsCand).length = 2 := by decide
    have hr : (matchedRoles allSignalsQuery allSignalsCand).length = 1 := by decide
    have ht : (matchedTestTypes allSignalsQuery allSignalsCand).length = 1 := by decide
    have hd : durSignal allSignalsQuery allSignalsCand = .bonus := by decide
    have hrem : remoteSignal allSignalsQuery allSignalsCand = true := by decide
    rw [hs, hr, ht, hd, hrem, signal_sum]
    norm_num [DurSignal.val]

/-- Witness for `keyword_score_monotone_capped`: monotonicity applied at a
concrete increase of the skill count. -/
theorem keyword_score_monotone_capped_witness :
    score_from_signals 1 0 0 .neutral false ≤ score_from_signals 2 0 0 .neutral false :=
  keyword_score_monotone_capped.2.1 1 2 0 0 0 0 .neutral .neutral false false
    (by decide) (by decide) (by decide) le_rfl (fun h => h)

/-- C5: in the keyword fallback with a truthy duration constraint, if some
candidate's parsed duration meets the constraint then every returned item's
parsed duration meets it; if no candidate meets it, the unfiltered ranking
is returned; on durations [20, 45, 90] with constraint 30 only the
20-minute candidate survives, and with constraint 10 the full ranking is
returned. -/
theorem keyword_duration_filtering :
    (∀ (q : String) (t : Nat) (cands : List Assessment) (m : Nat), t ≠ 0 →
      (∃ a ∈ cands, ∃ d, firstNumber a.duration.toList = some d ∧ d ≤ t) →
      ∀ x ∈ keywordPath q (some t) cands m,
        ∃ d, firstNumber x.duration.toList = some d ∧ d ≤ t) ∧
    (∀ (q : String) (t : Nat) (cands : List Assessment) (m : Nat), t ≠ 0 →
      (∀ a ∈ cands, ∀ d, firstNumber a.duration.toList = some d → t < d) →
      keywordPath q (some t) cands m = keywordPath q none cands m) ∧
    (keywordPath "within 30" (some 30) [candA20, candB45, candC90] 10).map Assessment.name
      = ["a20"] ∧
    (keywordPath "within 10" (some 10) [candA20, candB45, candC90] 10).map Assessment.name
      = ["a20", "b45", "c90"] := by
  refine ⟨?_, ?_, ?_, ?_⟩
  · intro q t cands m ht hex x hx
    simp only [keywordPath] at hx
    rw [if_pos ht] at hx
    obtain ⟨a, ha, d, hd, hdt⟩ := hex
    have hmem : scoreEntry q a ∈ scoredSorted q cands := mem_scoredSorted.mpr ⟨a, ha, rfl⟩
    have hp : durFilterPred t (scoreEntry q a) = true := by
      have he : (scoreEntry q a).1.duration = a.duration := rfl
      rw [durFilterPred, he, hd]
      simp [hdt]
    have hfil : scoreEntry q a ∈ (scoredSorted q cands).filter (durFilterPred t) :=
      List.mem_filter.mpr ⟨hmem, hp⟩
    have hne : ((scoredSorted q cands).filter (durFilterPred t)).isEmpty = false :=
      List.isEmpty_eq_false.mpr (List.ne_nil_of_mem hfil)
    rw [hne] at hx
    simp only [Bool.false_eq_true, if_false] at hx
    obtain ⟨y, hy, rfl⟩ := List.mem_map.mp hx
    have hyf := List.mem_of_mem_take hy
    obtain ⟨hys, hyp⟩ := List.mem_filter.mp hyf
    rw [durFilterPred] at hyp
    rcases hfn : firstNumber y.1.duration.toList with _ | d2
    · rw [hfn] at hyp; simp at hyp
    · rw [hfn] at hyp
      exact ⟨d2, rfl, of_decide_eq_true hyp⟩
  · intro q t cands m ht hall
    simp only [keywordPath]
    rw [if_pos ht]
    have hfe : (scoredSorted q cands).filter (durFilterPred t) = [] := by
      rw [List.filter_eq_nil_iff]
      intro y hy
      obtain ⟨a, ha, rfl⟩ := mem_scoredSorted.mp hy
      rw [durFilterPred]
      rcases hfn : firstNumber (scoreEntry q a).1.duration.toList with _ | d
      · simp
      · have hda : firstNumber a.duration.toList = some d := by
          simpa [scoreEntry] using hfn
        have := hall a ha d hda
        simp only [decide_eq_true_eq]
        omega
    rw [hfe]
    rfl
  · norm_num [keywordPath, scoredSorted, scoreEntry, List.insertionSort,
      List.orderedInsert, byScoreDesc, durFilterPred, scoreA30, scoreB30, scoreC30,
      firstNumberA20, firstNumberB45, firstNumberC90, nameA20, nameB45, nameC90]
  · norm_num [keywordPath, scoredSorted, scoreEntry, List.insertionSort,
      List.orderedInsert, byScoreDesc, durFilterPred, scoreA10, scoreB10, scoreC10,
      firstNumberA20, firstNumberB45, firstNumberC90, nameA20, nameB45, nameC90]

/-- Witness for `keyword_duration_filtering`: the filter property applied on
a singleton catalog whose candidate meets the constraint. -/
theorem keyword_duration_filtering_witness :
    ∃ d, firstNumber ({ candA20 with
        score := some (fallback_relevance_score "within 30" candA20) } :
        Assessment).duration.toList = some d ∧ d ≤ 30 :=
  keyword_duration_filtering.1 "within 30" 30 [candA20] 10 (by decide)
    ⟨candA20, List.mem_singleton.mpr rfl, 20, by decide, by decide⟩ _
    (show _ ∈ [_] from List.mem_singleton.mpr rfl)

/-- C6: `"...completed in 40 minutes"` extracts 40; `"within 30"` extracts
30; the first pattern to match wins (a `(\d+)\s*min` match decides the
result regardless of later patterns); text with no duration cue extracts
nothing; and `"2 hours"` parses to 120 minutes in the hour path. -/
theorem duration_extraction_behaviour :
    extract_time_constraint "must be completed in 40 minutes" = some 40 ∧
    extract_time_constraint "within 30" = some 30 ∧
    (∀ (q : String) (v : Nat), scanDigitsLit "min".toList (lowerStr q).toList = some v →
      extract_time_constraint q = some v) ∧
    extract_time_constraint "java developer" = none ∧
    extract_duration_minutes "2 hours" = some 120 := by
  refine ⟨by decide, by decide, ?_, by decide, by decide⟩
  intro q v h
  simp only [extract_time_constraint]
  rw [h]
  rfl

/-- Witness for `duration_extraction_behaviour`: first-pattern priority
applied at `"30 min"`. -/
theorem duration_extraction_behaviour_witness :
    extract_time_constraint "30 min" = some 30 :=
  duration_extraction_behaviour.2.2.1 "30 min" 30 (by decide)

/-- C7: the orchestrator never propagates a failure: whenever the pipeline
body raises, `get_recommendations` returns the empty list, and whenever the
body completes, its value is returned unchanged. -/
theorem top_level_exception_to_empty :
    ∀ (hasKey : Bool) (scrape : String → Except String String)
      (llmResp : Except String String) (P : EmbProvider) (input : String)
      (cands : List Assessment) (is_url : Bool) (m : Nat),
      (∀ e, get_recommendations_body hasKey scrape llmResp P input cands is_url m
          = .error e →
        get_recommendations hasKey scrape llmResp P input cands is_url m = []) ∧
      (∀ l, get_recommendations_body hasKey scrape llmResp P input cands is_url m
          = .ok l →
        get_recommendations hasKey scrape llmResp P input cands is_url m = l) := by
  intro hasKey scrape llmResp P input cands is_url m
  constructor
  · intro e he
    rw [get_recommendations, he]
  · intro l hl
    rw [get_recommendations, hl]

/-- Witness for `top_level_exception_to_empty`: a raising URL resolution is
converted into the empty result. -/
theorem top_level_exception_to_empty_witness :
    get_recommendations true (fun _ => .error "boom") (.ok "") provNone "u" [candPlain]
      true 5 = [] :=
  (top_level_exception_to_empty true (fun _ => .error "boom") (.ok "") provNone "u"
    [candPlain] true 5).1 "boom" rfl

/-- C8: the persistence write appends, for the saved query, recommendation
rows whose ranks are the contiguous 1-based sequence in list order (all
carrying the new query's id), and saving the same recommendation list twice
creates no second assessment row for any name: the second save leaves the
assessments table unchanged. -/
theorem persistence_invariants :
    (∀ (db : DB) (q : String) (u : Bool) (recs : List Assessment),
      ∃ newRows,
        (save_query_and_recommendations db q u recs).recs = db.recs ++ newRows ∧
        newRows.map RecRow.rank = List.range' 1 recs.length ∧
        newRows.map RecRow.query_id = List.replicate recs.length db.nextQid) ∧
    (∀ (db : DB) (q : String) (u : Bool) (recs : List Assessment),
      (save_query_and_recommendations (save_query_and_recommendations db q u recs)
          q u recs).assessments
        = (save_query_and_recommendations db q u recs).assessments) := by
  constructor
  · intro db q u recs
    obtain ⟨nr, h1, h2, h3⟩ := saveRecsLoop_recs db.nextQid recs
      { db with
        queries := db.queries ++ [⟨db.nextQid, q, if u then "url" else "text", u⟩]
        nextQid := db.nextQid + 1 } 0
    exact ⟨nr, h1, h2, h3⟩
  · intro db q u recs
    have hpresent : ∀ a ∈ recs,
        a.name ∈ dbNames (save_query_and_recommendations db q u recs) :=
      fun a ha => saveRecsLoop_names_present db.nextQid recs _ 0 a ha
    exact saveRecsLoop_no_new (save_query_and_recommendations db q u recs).nextQid recs
      _ 0 (fun a ha => hpresent a ha)

/-- C9: the caller-side facet filters keep an item iff its `test_type` is a
member of the requested set; iff its duration does not parse or parses to
at most the cap; and iff its remote-testing (resp. adaptive-support) field
equals the `"Yes"`/`"No"` string derived from the boolean facet. -/
theorem caller_side_filters :
    (∀ (recs : List Assessment) (s : String) (x : Assessment), ¬s = "" →
      (x ∈ apply_filters recs { test_types := some s } ↔
        x ∈ recs ∧ x.test_type ∈ parseTypeList s)) ∧
    (∀ (recs : List Assessment) (cap : Nat) (x : Assessment),
      x ∈ apply_filters recs { max_duration := some cap } ↔
        x ∈ recs ∧ ∀ d, extract_duration x.duration = some d → d ≤ cap) ∧
    (∀ (recs : List Assessment) (b : Bool) (x : Assessment),
      x ∈ apply_filters recs { remote_testing := some b } ↔
        x ∈ recs ∧ x.remote_testing = (if b then "Yes" else "No")) ∧
    (∀ (recs : List Assessment) (b : Bool) (x : Assessment),
      x ∈ apply_filters recs { adaptive_support := some b } ↔
        x ∈ recs ∧ x.adaptive_support = (if b then "Yes" else "No")) := by
  refine ⟨?_, ?_, ?_, ?_⟩
  · intro recs s x hs
    have hb : (s == "") = false := by simpa using hs
    simp [apply_filters, hb, List.mem_filter]
  · intro recs cap x
    simp only [apply_filters, Option.isSome_some, Option.isSome_none, Bool.or_true,
      Bool.or_false, Bool.false_or, Bool.true_or, Bool.not_true, Bool.false_eq_true,
      if_false, List.mem_filter]
    constructor
    · rintro ⟨h1, h2⟩
      refine ⟨h1, fun d hd => ?_⟩
      rw [hd] at h2
      exact of_decide_eq_true h2
    · rintro ⟨h1, h2⟩
      refine ⟨h1, ?_⟩
      rcases he : extract_duration x.duration with _ | d
      · rfl
      · exact decide_eq_true (h2 d he)
  · intro recs b x
    simp [apply_filters, List.mem_filter]
  · intro recs b x
    simp [apply_filters, List.mem_filter]

/-- Witness for `caller_side_filters`: the test-type filter keeps a
matching candidate. -/
theorem caller_side_filters_witness :
    candFilter ∈ apply_filters [candFilter] { test_types := some "Skill" } :=
  (caller_side_filters.1 [candFilter] "Skill" candFilter (by decide)).mpr
    ⟨List.mem_singleton.mpr rfl, by decide⟩

/-- C10: for every query and candidate the keyword-heuristic score lies in
`[-0.1, 1]`: the only negative contribution is the single `−0.1` duration
penalty, every other contribution is non-negative, and the score is capped
above at 1. -/
theorem keyword_score_range (q : String) (a : Assessment) :
    -1/10 ≤ fallback_relevance_score q a ∧ fallback_relevance_score q a ≤ 1 :=
  fallback_score_bounds q a

end SHLRec
